import Mathlib

/-!
# Shallow embedding of `src/scripts/lib9p.py`

The source is a small Python wrapper around the `9p` command-line utility
controlling acme editor windows.  We embed:

* the Python string operations the source uses (`str.partition`,
  `str.strip`, `str.split`, `readline`) over `List Char`;
* the control-file accessor `a_read` / `a_write` together with the derived
  window-control operations, instrumented with a log of accessor calls and
  an explicit passthrough model of the backing file store;
* the generator-based `EventHandler` (`get_event` / `stop`) as an explicit
  state machine over an operating-system model in which spawned background
  processes are numbered in spawn order.
-/

namespace Lib9p

/-- Python strings are modelled as lists of characters. -/
abbrev Str := List Char

/-- Coerce a Lean string literal into the `List Char` model. -/
def str (s : String) : Str := s.data

/-- `leadsWith sep s` is true when `s` starts with `sep`
(the prefix test used to locate a separator occurrence). -/
def leadsWith : Str → Str → Bool
  | [], _ => true
  | _ :: _, [] => false
  | a :: as, b :: bs => a = b && leadsWith as bs

/-- Split `s` at the first occurrence of `sep`: `some (before, after)`,
or `none` when `sep` does not occur in `s`. -/
def splitFirst (sep : Str) : Str → Option (Str × Str)
  | [] => if leadsWith sep [] then some ([], []) else none
  | c :: cs =>
      if leadsWith sep (c :: cs) then some ([], (c :: cs).drop sep.length)
      else
        match splitFirst sep cs with
        | some (a, b) => some (c :: a, b)
        | none => none

/-- Python's `sub in s` substring test. -/
def hasSub (sub s : Str) : Bool := (splitFirst sub s).isSome

/-- Python's `s.partition(sep)`: `(before, sep, after)` at the first
occurrence of `sep`, or `(s, "", "")` when `sep` does not occur. -/
def pyPartition (s sep : Str) : Str × Str × Str :=
  match splitFirst sep s with
  | some (a, b) => (a, sep, b)
  | none => (s, [], [])

/-- The whitespace set of Python's `str.split()` / `str.strip()`
(`Py_UNICODE_ISSPACE`): ASCII whitespace including vertical tab and form
feed, the file/group/record/unit separators, NEL, NBSP, and the Unicode
space characters.  This is wider than Lean's `Char.isWhitespace`. -/
def pySpace (c : Char) : Bool :=
  c = ' ' || c = '\t' || c = '\n' || c = '\r' ||
  c = Char.ofNat 0x0b || c = Char.ofNat 0x0c ||
  (Char.ofNat 0x1c ≤ c && c ≤ Char.ofNat 0x1f) ||
  c = Char.ofNat 0x85 || c = Char.ofNat 0xa0 ||
  c = Char.ofNat 0x1680 ||
  (Char.ofNat 0x2000 ≤ c && c ≤ Char.ofNat 0x200a) ||
  c = Char.ofNat 0x2028 || c = Char.ofNat 0x2029 ||
  c = Char.ofNat 0x202f || c = Char.ofNat 0x205f || c = Char.ofNat 0x3000

/-- Python's `s.strip()`: remove leading and trailing whitespace
(Python's whitespace set `pySpace`). -/
def pyStrip (s : Str) : Str :=
  ((s.dropWhile pySpace).reverse.dropWhile pySpace).reverse

/-- Worker for `pyWords`: `cur` is the (reversed) word being assembled. -/
def wordsAux (cur : Str) : Str → List Str
  | [] => if cur = [] then [] else [cur.reverse]
  | c :: cs =>
      if pySpace c then
        if cur = [] then wordsAux [] cs else cur.reverse :: wordsAux [] cs
      else wordsAux (c :: cur) cs

/-- Python's `s.split()` (no argument): split on runs of whitespace,
dropping empty fields. -/
def pyWords (s : Str) : List Str := wordsAux [] s

/-- Join words with single spaces, as `echo` renders its arguments. -/
def joinWords : List Str → Str
  | [] => []
  | [w] => w
  | w :: ws => w ++ ' ' :: joinWords ws

/-- Bytes produced on stdout by `echo {text}` in `a_write`'s shell command:
the shell word-splits `text`, `echo` joins the words with single spaces
and appends a newline.  This models the shell faithfully only on texts of
shell-literal characters (`shellLiteralChar`): a metacharacter such as
`|` would change the command's parse and an initial `-` word would be
taken as an `echo` option, so theorems about the stored bytes are stated
only on that domain. -/
def echoOutput (text : Str) : Str := joinWords (pyWords text) ++ ['\n']

/-- Characters the shell under `shell=True` passes to `echo` verbatim and
that cannot form an `echo` option: alphanumerics and a conservative list
of unquoted-safe punctuation, excluding whitespace.  On texts of such
characters `echoOutput` is an exact model of the shell command's stdout. -/
def shellLiteralChar (c : Char) : Bool :=
  (c.isAlphanum || c = '.' || c = '/' || c = '_' || c = ':' || c = ',' ||
    c = '+' || c = '@') && !pySpace c

/-! ## Errors

`PyErr` enumerates the Python exceptions reachable in the embedded code:
`missingContext` is the `KeyError` raised by `os.environ['winid']` when no
window id is available (the spec's `MissingContextError`), `indexError` the
`IndexError` of `split()[0]` on an empty list, `stopIteration` /
`typeError` the generator-protocol exceptions. -/
inductive PyErr
  | missingContext
  | indexError
  | stopIteration
  | typeError
deriving DecidableEq

/-! ## Control-file accessor -/

/-- One invocation of an accessor primitive against the control-file
protocol: a read of `acme/<id>/<fname>`, or a write of `text` to it. -/
inductive AcmeOp
  | read (id fname : Str)
  | write (id fname text : Str)
deriving DecidableEq

/-- Passthrough model of the per-window control-file store: a read of
`(id, fname)` returns the bytes most recently written there. -/
structure AcmeWorld where
  files : Str → Str → Str

/-- Pointwise update of the file store. -/
def updFiles (f : Str → Str → Str) (id fname v : Str) : Str → Str → Str :=
  fun i g => if i = id then (if g = fname then v else f i g) else f i g

/-- Resolution of the optional window id: an explicit `id` wins, otherwise
`os.environ['winid']` is consulted (`env`), and a missing entry raises
(`KeyError`, the spec's `MissingContextError`). -/
def resolveId (id : Option Str) (env : Option Str) : Except PyErr Str :=
  match id with
  | some i => Except.ok i
  | none =>
      match env with
      | some w => Except.ok w
      | none => Except.error PyErr.missingContext

/-- `a_read(fname, id=None)`: resolve the window id, run
`9p read acme/{id}/{fname}` and return its stdout decoded.  The result
carries the contents read and the accessor-call log. -/
def a_read (fname : Str) (id : Option Str) (env : Option Str) (w : AcmeWorld) :
    Except PyErr (Str × List AcmeOp) :=
  match resolveId id env with
  | Except.error e => Except.error e
  | Except.ok rid => Except.ok (w.files rid fname, [AcmeOp.read rid fname])

/-- `a_write(fname, text, id=None)`: resolve the window id and run
`echo {text} | 9p write acme/{id}/{fname}`.  The bytes that reach the file
are `echoOutput text` (note `echo` appends a newline); the log records the
accessor call with the text passed by the caller. -/
def a_write (fname text : Str) (id : Option Str) (env : Option Str) (w : AcmeWorld) :
    Except PyErr (AcmeWorld × List AcmeOp) :=
  match resolveId id env with
  | Except.error e => Except.error e
  | Except.ok rid =>
      Except.ok ({ files := updFiles w.files rid fname (echoOutput text) },
                 [AcmeOp.write rid fname text])

/-- `mark_clean(id=None)`: `a_write('ctl', 'clean', id)`. -/
def mark_clean (id : Option Str) (env : Option Str) (w : AcmeWorld) :
    Except PyErr (AcmeWorld × List AcmeOp) :=
  a_write (str "ctl") (str "clean") id env w

/-- `mark_dirty(id=None)`: `a_write('ctl', 'dirty', id)`. -/
def mark_dirty (id : Option Str) (env : Option Str) (w : AcmeWorld) :
    Except PyErr (AcmeWorld × List AcmeOp) :=
  a_write (str "ctl") (str "dirty") id env w

/-- `clear_tags(id=None)`: `a_write('ctl', 'cleartag', id)`. -/
def clear_tags (id : Option Str) (env : Option Str) (w : AcmeWorld) :
    Except PyErr (AcmeWorld × List AcmeOp) :=
  a_write (str "ctl") (str "cleartag") id env w

/-- `reload_window(id=None)`: `a_write('ctl', 'get', id)`. -/
def reload_window (id : Option Str) (env : Option Str) (w : AcmeWorld) :
    Except PyErr (AcmeWorld × List AcmeOp) :=
  a_write (str "ctl") (str "get") id env w

/-- `save(id=None)`: `a_write('ctl', 'put', id)`. -/
def save (id : Option Str) (env : Option Str) (w : AcmeWorld) :
    Except PyErr (AcmeWorld × List AcmeOp) :=
  a_write (str "ctl") (str "put") id env w

/-- `fname_and_tags(id=None)`:
`tag = a_read('tag', id)`;
`fname, _, _tags = tag.partition(' Del')`;
`_, _, tags = _tags.partition('|')`;
`return fname, tags.strip().split()`. -/
def fname_and_tags (id : Option Str) (env : Option Str) (w : AcmeWorld) :
    Except PyErr ((Str × List Str) × List AcmeOp) :=
  match a_read (str "tag") id env w with
  | Except.error e => Except.error e
  | Except.ok (tag, ops) =>
      let p1 := pyPartition tag (str " Del")
      let p2 := pyPartition p1.2.2 (str "|")
      Except.ok ((p1.1, pyWords (pyStrip p2.2.2)), ops)

/-- `get_window_name(id=None)`: `a_read('tag', id=id).split()[0]`; indexing
an empty list raises `IndexError`. -/
def get_window_name (id : Option Str) (env : Option Str) (w : AcmeWorld) :
    Except PyErr (Str × List AcmeOp) :=
  match a_read (str "tag") id env w with
  | Except.error e => Except.error e
  | Except.ok (tag, ops) =>
      match pyWords tag with
      | [] => Except.error PyErr.indexError
      | wname :: _ => Except.ok (wname, ops)

/-- The write-then-read experiment of the round-trip property: `a_write`
followed by `a_read` of the same file, returning what the read yields. -/
def writeThenRead (fname text : Str) (id : Option Str) (env : Option Str)
    (w : AcmeWorld) : Except PyErr Str :=
  match a_write fname text id env w with
  | Except.error e => Except.error e
  | Except.ok (w1, _) =>
      match a_read fname id env w1 with
      | Except.error e => Except.error e
      | Except.ok (s, _) => Except.ok s

/-! ## Event Stream Manager

The Python `EventHandler` drives a bidirectional generator `_gen` over a
background process spawned with
`Popen('9p read acme/{id}/event | acmeevent', ...)`.  We model the
operating system as `Sys`: processes are numbered in spawn order; the
`k`-th process spawned will emit the lines `streams k` on its stdout and
then reach end-of-file; `readline` at end-of-file returns the empty
string immediately.  Liveness only changes through `kill`. -/

/-- `Event`: wrapper around one acmeevent line (`Event.__init__`). -/
structure Event where
  text : Str
deriving DecidableEq

/-- A spawned background process: the lines still unread on its stdout,
and whether it has been killed. -/
structure Proc where
  lines : List Str
  alive : Bool
deriving DecidableEq

/-- Operating-system model: `streams k` is the full line stream the `k`-th
spawned process will produce; `procs` the processes spawned so far, in
spawn order (the process handle is its index). -/
structure Sys where
  streams : Nat → List Str
  procs : List Proc

/-- The system before any process has been spawned. -/
def initSys (streams : Nat → List Str) : Sys :=
  { streams := streams, procs := [] }

/-- `Popen(...)`: spawn a fresh background process, returning its handle. -/
def spawn (sys : Sys) : Nat × Sys :=
  (sys.procs.length,
   { sys with
       procs := sys.procs ++ [{ lines := sys.streams sys.procs.length, alive := true }] })

/-- `proc.stdout.readline()`: the next line with its trailing newline, or
the empty string at end-of-stream. -/
def readline (sys : Sys) (pid : Nat) : Str × Sys :=
  match sys.procs[pid]? with
  | none => ([], sys)
  | some p =>
      match p.lines with
      | [] => ([], sys)
      | l :: rest =>
          (l ++ ['\n'], { sys with procs := sys.procs.set pid { p with lines := rest } })

/-- `proc.kill()`: mark the process dead. -/
def killPid (sys : Sys) (pid : Nat) : Sys :=
  match sys.procs[pid]? with
  | none => sys
  | some p => { sys with procs := sys.procs.set pid { p with alive := false } }

/-- Suspension points of the generator `_gen` in `_init_event_gen`:
`unstarted` (created, never advanced), `atA` (suspended at
`continue_listening = yield`), `atB` (suspended at `yield Event(line)`),
`finished` (returned). -/
inductive GenState
  | unstarted
  | atA
  | atB
  | finished
deriving DecidableEq

/-- Outcome of advancing the generator once: it yields a value (an
`Event` or Python `None`) and suspends again, raises `StopIteration`
(it returned), or raises `TypeError` (non-`None` sent to an unstarted
generator). -/
inductive Resumed
  | yielded (v : Option Event) (g : GenState)
  | stopIter
  | typeError
deriving DecidableEq

/-- One step of the generator protocol on `_gen`.  `sent = none` models
`next(gen)` (sends Python `None`), `sent = some b` models `gen.send(b)`.
At `atA`, `continue_listening` receives the sent value; `None` and
`False` are both falsy, so either kills the process and returns, while
`True` reads and strips one line and yields it wrapped as an `Event`.
At `atB` the yielded-expression value is discarded and the loop suspends
again at `atA` yielding `None`. -/
def genResume (pid : Nat) (g : GenState) (sent : Option Bool) (sys : Sys) :
    Resumed × Sys :=
  match g with
  | GenState.unstarted =>
      match sent with
      | none => (Resumed.yielded none GenState.atA, sys)
      | some _ => (Resumed.typeError, sys)
  | GenState.atA =>
      match sent with
      | some true =>
          let r := readline sys pid
          (Resumed.yielded (some { text := pyStrip r.1 }) GenState.atB, r.2)
      | _ => (Resumed.stopIter, killPid sys pid)
  | GenState.atB => (Resumed.yielded none GenState.atA, sys)
  | GenState.finished => (Resumed.stopIter, sys)

/-- `EventHandler`: the window id (immutable) and `_gen_events`, which is
`None` until the first pull; once created, the generator closure captures
the handle of the process spawned by `_init_event_gen`. -/
structure EventHandler where
  winId : Str
  genEvents : Option (Nat × GenState)
deriving DecidableEq

/-- `EventHandler.__init__(id=None)`: resolve the window id (raising the
`KeyError` of `os.environ['winid']` when absent) and start with no
generator. -/
def mkEventHandler (id : Option Str) (env : Option Str) :
    Except PyErr EventHandler :=
  match resolveId id env with
  | Except.error e => Except.error e
  | Except.ok rid => Except.ok { winId := rid, genEvents := none }

/-- An `EventHandler` constructed with an explicit window id. -/
def freshHandler (wid : Str) : EventHandler :=
  { winId := wid, genEvents := none }

/-- The tail of `EventHandler.get_event` once a generator exists:
`evt = self._gen_events.send(True)` followed by
`next(self._gen_events)`, returning `evt`.  Uncaught generator
exceptions propagate to the caller as errors. -/
def getEventSend (h : EventHandler) (pid : Nat) (g : GenState) (sys : Sys) :
    Except PyErr (Option Event) × EventHandler × Sys :=
  match genResume pid g (some true) sys with
  | (Resumed.yielded v g1, sys1) =>
      match genResume pid g1 none sys1 with
      | (Resumed.yielded _ g2, sys2) =>
          (Except.ok v, { h with genEvents := some (pid, g2) }, sys2)
      | (Resumed.stopIter, sys2) =>
          (Except.error PyErr.stopIteration,
           { h with genEvents := some (pid, GenState.finished) }, sys2)
      | (Resumed.typeError, sys2) =>
          (Except.error PyErr.typeError, { h with genEvents := some (pid, g1) }, sys2)
  | (Resumed.stopIter, sys1) =>
      (Except.error PyErr.stopIteration,
       { h with genEvents := some (pid, GenState.finished) }, sys1)
  | (Resumed.typeError, sys1) =>
      (Except.error PyErr.typeError, { h with genEvents := some (pid, g) }, sys1)

/-- `EventHandler.get_event`: when `_gen_events is None`, run
`_init_event_gen` (which spawns the background process at once and
creates the generator) and `next(self._gen_events)` to advance it to its
first yield; then send `True`, read the yielded event and advance the
generator back to its receiving yield. -/
def get_event (h : EventHandler) (sys : Sys) :
    Except PyErr (Option Event) × EventHandler × Sys :=
  match h.genEvents with
  | none =>
      let sp := spawn sys
      match genResume sp.1 GenState.unstarted none sp.2 with
      | (Resumed.yielded _ g1, sys2) =>
          getEventSend { h with genEvents := some (sp.1, g1) } sp.1 g1 sys2
      | (Resumed.stopIter, sys2) =>
          (Except.error PyErr.stopIteration,
           { h with genEvents := some (sp.1, GenState.finished) }, sys2)
      | (Resumed.typeError, sys2) =>
          (Except.error PyErr.typeError,
           { h with genEvents := some (sp.1, GenState.unstarted) }, sys2)
  | some (pid, g) => getEventSend h pid g sys

/-- `EventHandler.stop`: a no-op when `_gen_events is None`; otherwise
`self._stop()` sends `False` into the generator (which kills the owned
process and returns, surfacing as `StopIteration`, caught by the
`try`/`except`), and `_gen_events` is reset to `None`.  An exception
other than `StopIteration` would propagate before the reset. -/
def stop (h : EventHandler) (sys : Sys) :
    Except PyErr Unit × EventHandler × Sys :=
  match h.genEvents with
  | none => (Except.ok (), h, sys)
  | some (pid, g) =>
      match genResume pid g (some false) sys with
      | (Resumed.stopIter, sys1) => (Except.ok (), { h with genEvents := none }, sys1)
      | (Resumed.yielded _ _, sys1) => (Except.ok (), { h with genEvents := none }, sys1)
      | (Resumed.typeError, sys1) =>
          (Except.error PyErr.typeError, { h with genEvents := some (pid, g) }, sys1)

/-- One caller-visible operation on the manager. -/
inductive Call
  | get
  | stopc
deriving DecidableEq

/-- Run one call, discarding its result. -/
def runCall (hs : EventHandler × Sys) : Call → EventHandler × Sys
  | Call.get => (get_event hs.1 hs.2).2
  | Call.stopc => (stop hs.1 hs.2).2

/-- Run a sequence of calls. -/
def runCalls (hs : EventHandler × Sys) : List Call → EventHandler × Sys
  | [] => hs
  | c :: cs => runCalls (runCall hs c) cs

/-- `n` sequential `get_event` calls: the list of their results and the
final state. -/
def getEvents : Nat → EventHandler × Sys → List (Except PyErr (Option Event)) × (EventHandler × Sys)
  | 0, hs => ([], hs)
  | n + 1, hs =>
      let r := get_event hs.1 hs.2
      let rest := getEvents n r.2
      (r.1 :: rest.1, rest.2)

/-- Number of live (spawned and not killed) background processes. -/
def aliveCount (sys : Sys) : Nat := (sys.procs.filter (fun p => p.alive)).length

/-- A manager state with one running process reading from stream `ls`
(the externally visible state after at least one `get_event`). -/
def runningPair (wid : Str) (streams : Nat → List Str) (ls : List Str) :
    EventHandler × Sys :=
  ({ winId := wid, genEvents := some (0, GenState.atA) },
   { streams := streams, procs := [{ lines := ls, alive := true }] })

/-! ## List helper lemmas -/

theorem getElem?_some_lt {α : Type} {l : List α} {n : Nat} {a : α}
    (h : l[n]? = some a) : n < l.length := by
  by_contra hc
  rw [List.getElem?_eq_none (Nat.le_of_not_lt hc)] at h
  exact Option.noConfusion h

theorem set_snoc {α : Type} (l : List α) (a b : α) :
    (l ++ [a]).set l.length b = l ++ [b] := by
  induction l with
  | nil => rfl
  | cons x xs ih => simp [List.set, ih]

/-! ## Lemmas on the Python string primitives -/

theorem leadsWith_ex : ∀ (sep s : Str), leadsWith sep s = true → ∃ t, s = sep ++ t
  | [], s, _ => ⟨s, rfl⟩
  | a :: as, [], h => by simp [leadsWith] at h
  | a :: as, b :: bs, h => by
      simp only [leadsWith, Bool.and_eq_true, decide_eq_true_eq] at h
      obtain ⟨t, ht⟩ := leadsWith_ex as bs h.2
      exact ⟨t, by simp [h.1, ht]⟩

theorem splitFirst_eq : ∀ (sep s a b : Str),
    splitFirst sep s = some (a, b) → s = a ++ sep ++ b := by
  intro sep s
  induction s with
  | nil =>
      intro a b h
      simp only [splitFirst] at h
      split at h
      · next hl =>
          obtain ⟨t, ht⟩ := leadsWith_ex sep [] hl
          obtain ⟨hsep, htn⟩ := List.append_eq_nil.mp ht.symm
          injection h with h'
          injection h' with h1 h2
          simp [← h1, ← h2, hsep]
      · exact Option.noConfusion h
  | cons c cs ih =>
      intro a b h
      simp only [splitFirst] at h
      split at h
      · next hl =>
          obtain ⟨t, ht⟩ := leadsWith_ex sep (c :: cs) hl
          injection h with h'
          injection h' with h1 h2
          subst h1
          rw [ht, List.drop_left] at h2
          simp [ht, ← h2]
      · revert h
        match hrec : splitFirst sep cs with
        | some (a', b') =>
            intro h
            injection h with h'
            injection h' with h1 h2
            subst h2
            have := ih a' b' hrec
            simp [← h1, this]
        | none => intro h; exact Option.noConfusion h

theorem hasSub_cons {x : Str} (c : Char) {t : Str} (h : hasSub x t = true) :
    hasSub x (c :: t) = true := by
  unfold hasSub at h ⊢
  unfold splitFirst
  split
  · rfl
  · obtain ⟨⟨a, b⟩, hab⟩ := Option.isSome_iff_exists.mp h
    rw [hab]
    rfl

theorem hasSub_append {x : Str} (pre : Str) {s : Str} (h : hasSub x s = true) :
    hasSub x (pre ++ s) = true := by
  induction pre with
  | nil => exact h
  | cons c cs ih => exact hasSub_cons c ih

theorem wordsAux_nonws : ∀ (s acc : Str), (∀ c ∈ s, pySpace c = false) →
    (acc ≠ [] ∨ s ≠ []) → wordsAux acc s = [acc.reverse ++ s] := by
  intro s
  induction s with
  | nil =>
      intro acc _ hor
      have hacc : acc ≠ [] := hor.resolve_right (fun h => h rfl)
      simp [wordsAux, hacc]
  | cons c cs ih =>
      intro acc hws _
      have hc : pySpace c = false := hws c (List.mem_cons_self c cs)
      have ihc := ih (c :: acc) (fun d hd => hws d (List.mem_cons_of_mem c hd))
        (Or.inl (List.cons_ne_nil c acc))
      simp [wordsAux, hc, ihc, List.reverse_cons, List.append_assoc]

theorem pyWords_single {text : Str} (hne : text ≠ [])
    (hnw : ∀ c ∈ text, pySpace c = false) : pyWords text = [text] := by
  have := wordsAux_nonws text [] hnw (Or.inr hne)
  simpa [pyWords] using this

theorem wordsAux_ne_nil_acc : ∀ (s acc : Str), acc ≠ [] → wordsAux acc s ≠ [] := by
  intro s
  induction s with
  | nil => intro acc hacc; simp [wordsAux, hacc]
  | cons c cs ih =>
      intro acc hacc
      by_cases hc : pySpace c
      · simp [wordsAux, hc, hacc]
      · exact fun h => ih (c :: acc) (List.cons_ne_nil c acc) (by simpa [wordsAux, hc] using h)

theorem wordsAux_ne_nil : ∀ (s acc : Str), (∃ c ∈ s, pySpace c = false) →
    wordsAux acc s ≠ [] := by
  intro s
  induction s with
  | nil => intro acc h; obtain ⟨c, hc, _⟩ := h; exact absurd hc (List.not_mem_nil c)
  | cons c cs ih =>
      intro acc h
      by_cases hc : pySpace c
      · have hcs : ∃ d ∈ cs, pySpace d = false := by
          obtain ⟨d, hd, hdw⟩ := h
          rcases List.mem_cons.mp hd with rfl | hd'
          · rw [hc] at hdw; exact absurd hdw (by simp)
          · exact ⟨d, hd', hdw⟩
        by_cases hacc : acc = []
        · subst hacc; simpa [wordsAux, hc] using ih [] hcs
        · simp [wordsAux, hc, hacc]
      · exact fun hcon =>
          wordsAux_ne_nil_acc cs (c :: acc) (List.cons_ne_nil c acc)
            (by simpa [wordsAux, hc] using hcon)

theorem pyWords_nil_of_ws : ∀ (s : Str), (∀ c ∈ s, pySpace c = true) →
    pyWords s = [] := by
  intro s
  induction s with
  | nil => intro _; rfl
  | cons c cs ih =>
      intro h
      have hc : pySpace c = true := h c (List.mem_cons_self c cs)
      have := ih (fun d hd => h d (List.mem_cons_of_mem c hd))
      simpa [pyWords, wordsAux, hc] using this

theorem echoOutput_single {text : Str} (hne : text ≠ [])
    (hnw : ∀ c ∈ text, pySpace c = false) :
    echoOutput text = text ++ ['\n'] := by
  rw [echoOutput, pyWords_single hne hnw]
  rfl

theorem shellLiteralChar_not_space {c : Char} (h : shellLiteralChar c = true) :
    pySpace c = false := by
  have h2 := ((Bool.and_eq_true _ _).mp h).2
  simpa using h2

theorem updFiles_self (f : Str → Str → Str) (id fname v : Str) :
    updFiles f id fname v id fname = v := by
  simp [updFiles]

/-! ## Claims about the control-file accessor -/

/-- Claim C6 (counterexample): the claim that `write` followed by `read` returns
exactly the written text fails at the concrete input `text = "hello"`:
because `a_write` pipes the text through `echo`, the bytes stored — and
returned by the subsequent passthrough `read` — are `"hello\n"`, which
differs from `"hello"`. -/
theorem write_read_roundtrip_cex :
    writeThenRead (str "body") (str "hello") (some (str "1")) none
        { files := fun _ _ => [] } = Except.ok (str "hello\n") ∧
    str "hello\n" ≠ str "hello" := by
  exact ⟨rfl, by decide⟩

/-- Claim C6 (amended): for any window id resolution and any nonempty
text of shell-literal characters (alphanumerics and safe punctuation, so
the shell passes the text to `echo` verbatim and it is not an `echo`
option), `write` followed by `read` under passthrough semantics returns
the written text with a newline appended (the newline comes from the
`echo` in `a_write`'s shell command), never the text itself. -/
theorem write_read_appends_newline (fname text : Str) (id env : Option Str)
    (w : AcmeWorld) (rid : Str) (hr : resolveId id env = Except.ok rid)
    (hne : text ≠ []) (hsafe : text.all shellLiteralChar = true) :
    writeThenRead fname text id env w = Except.ok (text ++ ['\n']) ∧
    text ++ ['\n'] ≠ text := by
  have hnw : ∀ c ∈ text, pySpace c = false := fun c hc =>
    shellLiteralChar_not_space (List.all_eq_true.mp hsafe c hc)
  constructor
  · simp only [writeThenRead, a_write, a_read, hr]
    rw [updFiles_self, echoOutput_single hne hnw]
  · intro h
    have := congrArg List.length h
    simp at this

/-- Claim C6 (witness): the amended round-trip at `text = "hello"`. -/
theorem write_read_appends_newline_witness :
    writeThenRead (str "body") (str "hello") (some (str "1")) none
        { files := fun _ _ => [] } = Except.ok (str "hello" ++ ['\n']) :=
  (write_read_appends_newline (str "body") (str "hello") (some (str "1")) none
    { files := fun _ _ => [] } (str "1") rfl (by decide) (by decide)).1

/-- Claim C7: `fname_and_tags` on the tag line `"main.go Del Snarf |undo redo"`
returns file name `"main.go"` and tag list `["undo", "redo"]`; and on any
tag line containing `" Del"` but no `"|"`, it returns the portion of the
line before the first `" Del"` as the file name and an empty tag list. -/
theorem fname_and_tags_spec (id env : Option Str) (w : AcmeWorld) (rid : Str)
    (tagC pre post : Str) (hr : resolveId id env = Except.ok rid)
    (hw : w.files rid (str "tag") = tagC)
    (hDel : splitFirst (str " Del") tagC = some (pre, post))
    (hPipe : hasSub (str "|") tagC = false) :
    fname_and_tags (some (str "3")) none
        { files := fun _ _ => str "main.go Del Snarf |undo redo" } =
      Except.ok ((str "main.go", [str "undo", str "redo"]),
        [AcmeOp.read (str "3") (str "tag")]) ∧
    fname_and_tags id env w = Except.ok ((pre, []), [AcmeOp.read rid (str "tag")]) := by
  constructor
  · rfl
  · have hnone : splitFirst (str "|") post = none := by
      cases hsp : splitFirst (str "|") post with
      | none => rfl
      | some ab =>
          exfalso
          have hpost : hasSub (str "|") post = true := by
            rw [hasSub, hsp]; rfl
          have : hasSub (str "|") tagC = true := by
            rw [splitFirst_eq (str " Del") tagC pre post hDel, List.append_assoc]
            exact hasSub_append pre (hasSub_append (str " Del") hpost)
          rw [this] at hPipe
          exact Bool.noConfusion hPipe
    simp only [fname_and_tags, a_read, hr, hw]
    simp only [pyPartition, hDel, hnone]
    rfl

/-- Claim C7 (witness): the generic branch at the tag line `"x.py Del Snarf Get"`,
which contains `" Del"` and no `"|"`. -/
theorem fname_and_tags_spec_witness :
    fname_and_tags (some (str "9")) none
        { files := fun _ _ => str "x.py Del Snarf Get" } =
      Except.ok ((str "x.py", []), [AcmeOp.read (str "9") (str "tag")]) :=
  (fname_and_tags_spec (some (str "9")) none
    { files := fun _ _ => str "x.py Del Snarf Get" } (str "9")
    (str "x.py Del Snarf Get") (str "x.py") (str " Snarf Get")
    rfl rfl (by decide) (by decide)).2

/-- Claim C8: for every resolvable window identifier, `mark_dirty` performs
exactly one accessor call — a write of the literal `"dirty"` to `ctl` —
and no read, and `mark_clean` exactly one write of `"clean"` to `ctl`
and no read (the operation log is exactly one write entry). -/
theorem mark_ops_single_write (id env : Option Str) (w : AcmeWorld) (rid : Str)
    (hr : resolveId id env = Except.ok rid) :
    (∃ w1, mark_dirty id env w =
        Except.ok (w1, [AcmeOp.write rid (str "ctl") (str "dirty")])) ∧
    (∃ w2, mark_clean id env w =
        Except.ok (w2, [AcmeOp.write rid (str "ctl") (str "clean")])) := by
  constructor
  · refine ⟨{ files := updFiles w.files rid (str "ctl") (echoOutput (str "dirty")) }, ?_⟩
    simp only [mark_dirty, a_write, hr]
  · refine ⟨{ files := updFiles w.files rid (str "ctl") (echoOutput (str "clean")) }, ?_⟩
    simp only [mark_clean, a_write, hr]

/-- Claim C8 (witness): `mark_dirty` / `mark_clean` at window id `"4"`. -/
theorem mark_ops_single_write_witness :
    (∃ w1, mark_dirty (some (str "4")) none { files := fun _ _ => [] } =
        Except.ok (w1, [AcmeOp.write (str "4") (str "ctl") (str "dirty")])) ∧
    (∃ w2, mark_clean (some (str "4")) none { files := fun _ _ => [] } =
        Except.ok (w2, [AcmeOp.write (str "4") (str "ctl") (str "clean")])) :=
  mark_ops_single_write (some (str "4")) none { files := fun _ _ => [] } (str "4") rfl

/-- Claim C9: with no explicit identifier (`id = none`) and no ambient
`winid` in the environment (`env = none`), every identifier-taking API
operation — `a_read`, `a_write`, the derived control operations, and
`EventHandler` construction — fails with the missing-context error (the
`KeyError` of `os.environ['winid']`). -/
theorem missing_winid_errors (fname text : Str) (w : AcmeWorld) :
    a_read fname none none w = Except.error PyErr.missingContext ∧
    a_write fname text none none w = Except.error PyErr.missingContext ∧
    mark_clean none none w = Except.error PyErr.missingContext ∧
    mark_dirty none none w = Except.error PyErr.missingContext ∧
    clear_tags none none w = Except.error PyErr.missingContext ∧
    reload_window none none w = Except.error PyErr.missingContext ∧
    save none none w = Except.error PyErr.missingContext ∧
    fname_and_tags none none w = Except.error PyErr.missingContext ∧
    get_window_name none none w = Except.error PyErr.missingContext ∧
    mkEventHandler none none = Except.error PyErr.missingContext :=
  ⟨rfl, rfl, rfl, rfl, rfl, rfl, rfl, rfl, rfl, rfl⟩

/-- Claim C10: `get_window_name` is partial: when the tag file contains at least
one non-whitespace character it returns the first whitespace-separated
token, but on empty or all-whitespace content it raises `IndexError`
(from `split()[0]`) instead of returning a value or a typed error. -/
theorem get_window_name_index_error (id env : Option Str) (w : AcmeWorld)
    (rid content : Str) (hr : resolveId id env = Except.ok rid)
    (hw : w.files rid (str "tag") = content) :
    ((∃ c ∈ content, pySpace c = false) →
      ∃ wname rest, pyWords content = wname :: rest ∧
        get_window_name id env w =
          Except.ok (wname, [AcmeOp.read rid (str "tag")])) ∧
    ((∀ c ∈ content, pySpace c = true) →
      get_window_name id env w = Except.error PyErr.indexError) := by
  constructor
  · intro hex
    have hne : pyWords content ≠ [] := wordsAux_ne_nil content [] hex
    cases hpw : pyWords content with
    | nil => exact absurd hpw hne
    | cons wname rest =>
        refine ⟨wname, rest, rfl, ?_⟩
        simp only [get_window_name, a_read, hr, hw, hpw]
  · intro hall
    have hpw := pyWords_nil_of_ws content hall
    simp only [get_window_name, a_read, hr, hw, hpw]

/-- Claim C10 (witness): tag content `"main.go Del"` yields token `"main.go"`;
tag content `"   "` raises `IndexError`. -/
theorem get_window_name_index_error_witness :
    (∃ wname rest, pyWords (str "main.go Del") = wname :: rest ∧
      get_window_name (some (str "1")) none
          { files := fun _ _ => str "main.go Del" } =
        Except.ok (wname, [AcmeOp.read (str "1") (str "tag")])) ∧
    get_window_name (some (str "2")) none { files := fun _ _ => str "   " } =
      Except.error PyErr.indexError :=
  ⟨(get_window_name_index_error (some (str "1")) none
      { files := fun _ _ => str "main.go Del" } (str "1") (str "main.go Del")
      rfl rfl).1 ⟨'m', by decide⟩,
   (get_window_name_index_error (some (str "2")) none
      { files := fun _ _ => str "   " } (str "2") (str "   ")
      rfl rfl).2 (by decide)⟩

/-! ## Step lemmas for the Event Stream Manager -/

theorem get_event_none_nil (h : EventHandler) (s : Sys)
    (hg : h.genEvents = none) (hs : s.streams s.procs.length = []) :
    get_event h s =
      (Except.ok (some { text := [] }),
       { winId := h.winId, genEvents := some (s.procs.length, GenState.atA) },
       { streams := s.streams, procs := s.procs ++ [{ lines := [], alive := true }] }) := by
  have hlook : (s.procs ++ [({ lines := [], alive := true } : Proc)])[s.procs.length]? =
      some { lines := [], alive := true } := List.getElem?_concat_length _ _
  simp only [get_event, hg, spawn, hs, genResume, getEventSend, readline, hlook, pyStrip,
    List.dropWhile_nil, List.reverse_nil]

theorem get_event_none_cons (h : EventHandler) (s : Sys) (l : Str) (rest : List Str)
    (hg : h.genEvents = none) (hs : s.streams s.procs.length = l :: rest) :
    get_event h s =
      (Except.ok (some { text := pyStrip (l ++ ['\n']) }),
       { winId := h.winId, genEvents := some (s.procs.length, GenState.atA) },
       { streams := s.streams, procs := s.procs ++ [{ lines := rest, alive := true }] }) := by
  have hlook : (s.procs ++ [({ lines := l :: rest, alive := true } : Proc)])[s.procs.length]? =
      some { lines := l :: rest, alive := true } := List.getElem?_concat_length _ _
  simp only [get_event, hg, spawn, hs, genResume, getEventSend, readline, hlook, set_snoc]

theorem get_event_atA_nil (h : EventHandler) (s : Sys) (pid : Nat) (p : Proc)
    (hg : h.genEvents = some (pid, GenState.atA))
    (hp : s.procs[pid]? = some p) (hl : p.lines = []) :
    get_event h s = (Except.ok (some { text := [] }),
      { winId := h.winId, genEvents := some (pid, GenState.atA) }, s) := by
  simp only [get_event, hg, getEventSend, genResume, readline, hp, hl, pyStrip,
    List.dropWhile_nil, List.reverse_nil]

theorem get_event_atA_cons (h : EventHandler) (s : Sys) (pid : Nat) (p : Proc)
    (l : Str) (rest : List Str) (hg : h.genEvents = some (pid, GenState.atA))
    (hp : s.procs[pid]? = some p) (hl : p.lines = l :: rest) :
    get_event h s =
      (Except.ok (some { text := pyStrip (l ++ ['\n']) }),
       { winId := h.winId, genEvents := some (pid, GenState.atA) },
       { streams := s.streams, procs := s.procs.set pid { lines := rest, alive := p.alive } }) := by
  simp only [get_event, hg, getEventSend, genResume, readline, hp, hl]

theorem stop_gen_none (h : EventHandler) (s : Sys) (hg : h.genEvents = none) :
    stop h s = (Except.ok (), h, s) := by
  simp only [stop, hg]

theorem stop_gen_atA (h : EventHandler) (s : Sys) (pid : Nat) (p : Proc)
    (hg : h.genEvents = some (pid, GenState.atA)) (hp : s.procs[pid]? = some p) :
    stop h s =
      (Except.ok (), { winId := h.winId, genEvents := none },
       { streams := s.streams, procs := s.procs.set pid { lines := p.lines, alive := false } }) := by
  simp only [stop, hg, genResume, killPid, hp]

/-! ## The single-process invariant -/

/-- Every spawned process has been killed. -/
abbrev AllDead (procs : List Proc) : Prop :=
  ∀ (j : Nat) (p : Proc), procs[j]? = some p → p.alive = false

/-- At most the process with handle `pid` is live. -/
abbrev AliveOnlyAt (procs : List Proc) (pid : Nat) : Prop :=
  ∀ (j : Nat) (p : Proc), procs[j]? = some p → p.alive = true → j = pid

/-- Reachable-state invariant of one `EventHandler` driving the system:
while Idle every previously spawned process is dead; while Active the
generator is suspended at its receiving yield and its captured process
handle is the only possibly-live process. -/
def Inv (hs : EventHandler × Sys) : Prop :=
  (hs.1.genEvents = none → AllDead hs.2.procs) ∧
  (∀ pid g, hs.1.genEvents = some (pid, g) →
    g = GenState.atA ∧ pid < hs.2.procs.length ∧ AliveOnlyAt hs.2.procs pid)

theorem inv_fresh (wid : Str) (streams : Nat → List Str) :
    Inv (freshHandler wid, initSys streams) := by
  constructor
  · intro _ j p hj
    simp [initSys] at hj
  · intro pid g hg
    exact Option.noConfusion hg

theorem aliveOnlyAt_snoc {procs : List Proc} (q : Proc) (hd : AllDead procs) :
    AliveOnlyAt (procs ++ [q]) procs.length := by
  intro j p hj halive
  rcases Nat.lt_trichotomy j procs.length with hlt | heq | hgt
  · rw [List.getElem?_append, if_pos hlt] at hj
    rw [hd j p hj] at halive
    exact Bool.noConfusion halive
  · exact heq
  · exfalso
    have : (procs ++ [q]).length ≤ j := by
      simp only [List.length_append, List.length_cons, List.length_nil]
      omega
    rw [List.getElem?_eq_none this] at hj
    exact Option.noConfusion hj

theorem inv_get {hs : EventHandler × Sys} (hI : Inv hs) :
    Inv (get_event hs.1 hs.2).2 := by
  obtain ⟨h, s⟩ := hs
  cases hg : h.genEvents with
  | none =>
      have hd : AllDead s.procs := hI.1 hg
      cases hstream : s.streams s.procs.length with
      | nil =>
          rw [get_event_none_nil h s hg hstream]
          refine ⟨fun hn => Option.noConfusion hn, ?_⟩
          intro pid g hpg
          injection hpg with hpg'
          injection hpg' with hpid hgen
          subst hpid
          refine ⟨hgen.symm, by simp, aliveOnlyAt_snoc _ hd⟩
      | cons l rest =>
          rw [get_event_none_cons h s l rest hg hstream]
          refine ⟨fun hn => Option.noConfusion hn, ?_⟩
          intro pid g hpg
          injection hpg with hpg'
          injection hpg' with hpid hgen
          subst hpid
          refine ⟨hgen.symm, by simp, aliveOnlyAt_snoc _ hd⟩
  | some pidg =>
      obtain ⟨pid, g⟩ := pidg
      obtain ⟨hatA, hlt, halive⟩ := hI.2 pid g hg
      subst hatA
      obtain ⟨p, hp⟩ : ∃ p, s.procs[pid]? = some p :=
        ⟨s.procs.get ⟨pid, hlt⟩, List.getElem?_eq_some.mpr ⟨hlt, rfl⟩⟩
      cases hl : p.lines with
      | nil =>
          rw [get_event_atA_nil h s pid p hg hp hl]
          refine ⟨fun hn => Option.noConfusion hn, ?_⟩
          intro pid' g' hpg
          injection hpg with hpg'
          injection hpg' with hpid hgen
          subst hpid
          exact ⟨hgen.symm, hlt, halive⟩
      | cons l rest =>
          rw [get_event_atA_cons h s pid p l rest hg hp hl]
          refine ⟨fun hn => Option.noConfusion hn, ?_⟩
          intro pid' g' hpg
          injection hpg with hpg'
          injection hpg' with hpid hgen
          subst hpid
          refine ⟨hgen.symm, by simpa using hlt, ?_⟩
          intro j q hj hq
          by_cases hjp : pid = j
          · exact hjp.symm
          · rw [List.getElem?_set_ne hjp] at hj
            exact halive j q hj hq

theorem inv_stop {hs : EventHandler × Sys} (hI : Inv hs) :
    Inv (stop hs.1 hs.2).2 := by
  obtain ⟨h, s⟩ := hs
  cases hg : h.genEvents with
  | none =>
      rw [stop_gen_none h s hg]
      exact ⟨hI.1, hI.2⟩
  | some pidg =>
      obtain ⟨pid, g⟩ := pidg
      obtain ⟨hatA, hlt, halive⟩ := hI.2 pid g hg
      subst hatA
      obtain ⟨p, hp⟩ : ∃ p, s.procs[pid]? = some p :=
        ⟨s.procs.get ⟨pid, hlt⟩, List.getElem?_eq_some.mpr ⟨hlt, rfl⟩⟩
      rw [stop_gen_atA h s pid p hg hp]
      constructor
      · intro _ j q hj
        by_cases hjp : pid = j
        · subst hjp
          rw [List.getElem?_set_eq_of_lt _ (by simpa using hlt)] at hj
          injection hj with hj'
          rw [← hj']
        · rw [List.getElem?_set_ne hjp] at hj
          cases hq : q.alive with
          | false => rfl
          | true => exact absurd (halive j q hj hq) (fun he => hjp he.symm)
      · intro pid' g' hpg
        exact Option.noConfusion hpg

theorem inv_runCall {hs : EventHandler × Sys} (c : Call) (hI : Inv hs) :
    Inv (runCall hs c) := by
  cases c with
  | get => exact inv_get hI
  | stopc => exact inv_stop hI

theorem inv_runCalls (calls : List Call) : ∀ hs : EventHandler × Sys,
    Inv hs → Inv (runCalls hs calls) := by
  induction calls with
  | nil => intro hs hI; exact hI
  | cons c cs ih => intro hs hI; exact ih (runCall hs c) (inv_runCall c hI)

theorem allDead_filter : ∀ procs : List Proc, AllDead procs →
    procs.filter (fun p => p.alive) = [] := by
  intro procs
  induction procs with
  | nil => intro _; rfl
  | cons a t ih =>
      intro hd
      have ha : a.alive = false := hd 0 a (by simp)
      have ht : AllDead t := fun j p hj => hd (j + 1) p (by simpa using hj)
      simp [List.filter, ha, ih ht]

theorem aliveOnly_le_one : ∀ (procs : List Proc) (pid : Nat),
    AliveOnlyAt procs pid → (procs.filter (fun p => p.alive)).length ≤ 1 := by
  intro procs
  induction procs with
  | nil => intro pid _; simp
  | cons a t ih =>
      intro pid h
      cases ha : a.alive with
      | false =>
          have hshift : ∀ j q, t[j]? = some q → q.alive = true → j + 1 = pid :=
            fun j q hj hq => h (j + 1) q (by simpa using hj) hq
          cases pid with
          | zero =>
              have ht : AllDead t := by
                intro j q hj
                cases hq : q.alive with
                | false => rfl
                | true => exact absurd (hshift j q hj hq) (Nat.succ_ne_zero j)
              simp [List.filter, ha, allDead_filter t ht]
          | succ pid0 =>
              have ht : AliveOnlyAt t pid0 :=
                fun j q hj hq => Nat.succ_injective (hshift j q hj hq)
              simpa [List.filter, ha] using ih pid0 ht
      | true =>
          have hpid : pid = 0 := (h 0 a (by simp) ha).symm
          have ht : AllDead t := by
            intro j q hj
            cases hq : q.alive with
            | false => rfl
            | true =>
                have := h (j + 1) q (by simpa using hj) hq
                rw [hpid] at this
                exact absurd this (Nat.succ_ne_zero j)
          simp [List.filter, ha, allDead_filter t ht]

theorem inv_aliveCount {hs : EventHandler × Sys} (hI : Inv hs) :
    aliveCount hs.2 ≤ 1 := by
  cases hg : hs.1.genEvents with
  | none =>
      rw [aliveCount, allDead_filter _ (hI.1 hg)]
      exact Nat.zero_le 1
  | some pidg =>
      obtain ⟨pid, g⟩ := pidg
      exact aliveOnly_le_one _ pid (hI.2 pid g hg).2.2

/-! ## Claims about the Event Stream Manager -/

/-- Claim C1: across every sequence of `get_event`/`stop` calls the manager
holds at most one live background process: construction creates none
(`_gen_events is None`, no process spawned), a `get_event` from the Idle
state spawns exactly one process (the process count rises by one and the
generator captures the new handle), and a `get_event` from the Active
state reuses the captured process (the count is unchanged and the handle
is the same). -/
theorem eventHandler_single_live_process (wid : Str) (env : Option Str)
    (streams : Nat → List Str) (calls : List Call) :
    mkEventHandler (some wid) env = Except.ok (freshHandler wid) ∧
    (freshHandler wid).genEvents = none ∧
    aliveCount (initSys streams) = 0 ∧
    aliveCount (runCalls (freshHandler wid, initSys streams) calls).2 ≤ 1 ∧
    ((runCalls (freshHandler wid, initSys streams) calls).1.genEvents = none →
      (get_event (runCalls (freshHandler wid, initSys streams) calls).1
          (runCalls (freshHandler wid, initSys streams) calls).2).2.2.procs.length =
        (runCalls (freshHandler wid, initSys streams) calls).2.procs.length + 1 ∧
      (get_event (runCalls (freshHandler wid, initSys streams) calls).1
          (runCalls (freshHandler wid, initSys streams) calls).2).2.1.genEvents =
        some ((runCalls (freshHandler wid, initSys streams) calls).2.procs.length,
          GenState.atA)) ∧
    (∀ pid g, (runCalls (freshHandler wid, initSys streams) calls).1.genEvents =
        some (pid, g) →
      (get_event (runCalls (freshHandler wid, initSys streams) calls).1
          (runCalls (freshHandler wid, initSys streams) calls).2).2.2.procs.length =
        (runCalls (freshHandler wid, initSys streams) calls).2.procs.length ∧
      (get_event (runCalls (freshHandler wid, initSys streams) calls).1
          (runCalls (freshHandler wid, initSys streams) calls).2).2.1.genEvents =
        some (pid, GenState.atA)) := by
  have hI : Inv (runCalls (freshHandler wid, initSys streams) calls) :=
    inv_runCalls calls _ (inv_fresh wid streams)
  refine ⟨rfl, rfl, rfl, inv_aliveCount hI, ?_, ?_⟩
  · intro hnone
    cases hstream : (runCalls (freshHandler wid, initSys streams) calls).2.streams
        (runCalls (freshHandler wid, initSys streams) calls).2.procs.length with
    | nil =>
        rw [get_event_none_nil _ _ hnone hstream]
        simp
    | cons l rest =>
        rw [get_event_none_cons _ _ l rest hnone hstream]
        simp
  · intro pid g hsome
    obtain ⟨hatA, hlt, _⟩ := hI.2 pid g hsome
    subst hatA
    obtain ⟨p, hp⟩ : ∃ p, (runCalls (freshHandler wid, initSys streams) calls).2.procs[pid]? =
        some p :=
      ⟨_, List.getElem?_eq_some.mpr ⟨hlt, rfl⟩⟩
    cases hl : p.lines with
    | nil => rw [get_event_atA_nil _ _ pid p hsome hp hl]; exact ⟨rfl, rfl⟩
    | cons l rest =>
        rw [get_event_atA_cons _ _ pid p l rest hsome hp hl]
        simp

/-- Claim C1 (witness): with backing streams all `["A"]`, a `get_event`
from the just-constructed manager spawns exactly one process, and a
`get_event` after one prior `get_event` keeps the process count at one
and the same handle `0`. -/
theorem eventHandler_single_live_process_witness :
    ((get_event (freshHandler (str "w")) (initSys (fun _ => [str "A"]))).2.2.procs.length =
      (initSys (fun _ => [str "A"])).procs.length + 1) ∧
    ((get_event (runCalls (freshHandler (str "w"),
          initSys (fun _ => [str "A"])) [Call.get]).1
        (runCalls (freshHandler (str "w"),
          initSys (fun _ => [str "A"])) [Call.get]).2).2.2.procs.length =
      (runCalls (freshHandler (str "w"),
          initSys (fun _ => [str "A"])) [Call.get]).2.procs.length ∧
     (get_event (runCalls (freshHandler (str "w"),
          initSys (fun _ => [str "A"])) [Call.get]).1
        (runCalls (freshHandler (str "w"),
          initSys (fun _ => [str "A"])) [Call.get]).2).2.1.genEvents =
      some (0, GenState.atA)) :=
  ⟨((eventHandler_single_live_process (str "w") none (fun _ => [str "A"])
      []).2.2.2.2.1 rfl).1,
   (eventHandler_single_live_process (str "w") none (fun _ => [str "A"])
      [Call.get]).2.2.2.2.2 0 GenState.atA rfl⟩

theorem get_event_running_nil (wid : Str) (streams : Nat → List Str) :
    get_event (runningPair wid streams []).1 (runningPair wid streams []).2 =
      (Except.ok (some { text := [] }), runningPair wid streams []) := rfl

theorem get_event_running_cons (wid : Str) (streams : Nat → List Str)
    (l : Str) (rest : List Str) :
    get_event (runningPair wid streams (l :: rest)).1
        (runningPair wid streams (l :: rest)).2 =
      (Except.ok (some { text := pyStrip (l ++ ['\n']) }),
       runningPair wid streams rest) := rfl

theorem get_event_fresh_eq (wid : Str) (streams : Nat → List Str) :
    get_event (freshHandler wid) (initSys streams) =
      get_event (runningPair wid streams (streams 0)).1
        (runningPair wid streams (streams 0)).2 := rfl

theorem getEvents_running (n : Nat) : ∀ (wid : Str) (streams : Nat → List Str)
    (ls : List Str),
    (getEvents n (runningPair wid streams ls)).1 =
      (ls.take n).map (fun l => Except.ok (some { text := pyStrip (l ++ ['\n']) })) ++
      List.replicate (n - ls.length) (Except.ok (some { text := [] })) := by
  induction n with
  | zero => intro wid streams ls; simp [getEvents]
  | succ n ih =>
      intro wid streams ls
      cases ls with
      | nil =>
          simp only [getEvents, get_event_running_nil, ih wid streams []]
          simp [List.replicate_succ]
      | cons l rest =>
          simp only [getEvents, get_event_running_cons, ih wid streams rest]
          simp [List.take, Nat.succ_sub_succ]

theorem getEvents_fresh (n : Nat) (wid : Str) (streams : Nat → List Str) :
    (getEvents n (freshHandler wid, initSys streams)).1 =
      (getEvents n (runningPair wid streams (streams 0))).1 := by
  cases n with
  | zero => rfl
  | succ n => simp only [getEvents, get_event_fresh_eq]

/-- Claim C2: events come back in exactly the order the backing stream
produced them (FIFO): for every backing line stream, the `k`-th of `n`
sequential `get_event` calls on a fresh manager returns the `k`-th line
of the stream (as read by `readline` and stripped).  In particular with
lines `"A"`, `"B"`, `"C"`, three calls return Event `"A"`, Event `"B"`,
Event `"C"` in that order. -/
theorem get_event_fifo (wid : Str) (streams : Nat → List Str) (n k : Nat)
    (l : Str) (hk : k < n) (hl : (streams 0)[k]? = some l) :
    (getEvents n (freshHandler wid, initSys streams)).1[k]? =
      some (Except.ok (some { text := pyStrip (l ++ ['\n']) })) := by
  rw [getEvents_fresh, getEvents_running]
  have hklen : k < (streams 0).length := getElem?_some_lt hl
  have h1 : k < (((streams 0).take n).map
      (fun l => (Except.ok (some { text := pyStrip (l ++ ['\n']) }) :
        Except PyErr (Option Event)))).length := by
    simp only [List.length_map, List.length_take]
    exact lt_min hk hklen
  rw [List.getElem?_append, if_pos h1, List.getElem?_map, List.getElem?_take,
    if_pos hk, hl]
  rfl

/-- Claim C2 (witness): with the backing stream `["A", "B", "C"]`, the
three sequential `get_event` results are Event `"A"`, Event `"B"`,
Event `"C"` in that order. -/
theorem get_event_fifo_witness :
    (getEvents 3 (freshHandler (str "w"),
        initSys (fun _ => [str "A", str "B", str "C"]))).1[0]? =
      some (Except.ok (some { text := str "A" })) ∧
    (getEvents 3 (freshHandler (str "w"),
        initSys (fun _ => [str "A", str "B", str "C"]))).1[1]? =
      some (Except.ok (some { text := str "B" })) ∧
    (getEvents 3 (freshHandler (str "w"),
        initSys (fun _ => [str "A", str "B", str "C"]))).1[2]? =
      some (Except.ok (some { text := str "C" })) :=
  ⟨get_event_fifo (str "w") (fun _ => [str "A", str "B", str "C"]) 3 0 (str "A")
      (by decide) rfl,
   get_event_fifo (str "w") (fun _ => [str "A", str "B", str "C"]) 3 1 (str "B")
      (by decide) rfl,
   get_event_fifo (str "w") (fun _ => [str "A", str "B", str "C"]) 3 2 (str "C")
      (by decide) rfl⟩

/-- Claim C3 (counterexample): when the backing stream has already ended
(it emits no lines at all), the next `get_event` does *not* fail with a
`StreamClosed`-style error: it succeeds, returning a normal `Event` whose
text is empty, because `readline` returns `""` at end-of-file and the
generator wraps the stripped empty line in an `Event`. -/
theorem get_event_eof_cex :
    (get_event (freshHandler (str "w")) (initSys (fun _ => []))).1 =
      Except.ok (some { text := [] }) := rfl

/-- Claim C3 (amended): when the backing stream has ended, `get_event`
does not block and does not signal a distinguishable terminal condition:
it returns a normal `Event` with empty text and leaves the manager state
unchanged, so every subsequent `get_event` does the same. -/
theorem get_event_eof_returns_empty_event (wid : Str) (streams : Nat → List Str)
    (n : Nat) :
    get_event (runningPair wid streams []).1 (runningPair wid streams []).2 =
      (Except.ok (some { text := [] }), runningPair wid streams []) ∧
    (getEvents n (runningPair wid streams [])).1 =
      List.replicate n (Except.ok (some { text := [] })) := by
  refine ⟨rfl, ?_⟩
  rw [getEvents_running]
  simp

/-- Claim C4: `stop` never fails visibly: on a just-constructed manager it
is a complete no-op (no error, no state change); on any state reachable by
`get_event`/`stop` calls it returns successfully (the `StopIteration`
surfacing from the generator's return is caught, and process termination
is not consulted for errors); and whenever the manager is already Idle it
is a no-op. -/
theorem stop_never_fails (wid : Str) (streams : Nat → List Str)
    (calls : List Call) :
    stop (freshHandler wid) (initSys streams) =
      (Except.ok (), freshHandler wid, initSys streams) ∧
    (stop (runCalls (freshHandler wid, initSys streams) calls).1
        (runCalls (freshHandler wid, initSys streams) calls).2).1 = Except.ok () ∧
    ((runCalls (freshHandler wid, initSys streams) calls).1.genEvents = none →
      stop (runCalls (freshHandler wid, initSys streams) calls).1
          (runCalls (freshHandler wid, initSys streams) calls).2 =
        (Except.ok (), runCalls (freshHandler wid, initSys streams) calls)) := by
  have hI : Inv (runCalls (freshHandler wid, initSys streams) calls) :=
    inv_runCalls calls _ (inv_fresh wid streams)
  refine ⟨rfl, ?_, ?_⟩
  · cases hg : (runCalls (freshHandler wid, initSys streams) calls).1.genEvents with
    | none => rw [stop_gen_none _ _ hg]
    | some pidg =>
        obtain ⟨pid, g⟩ := pidg
        obtain ⟨hatA, hlt, _⟩ := hI.2 pid g hg
        subst hatA
        obtain ⟨p, hp⟩ : ∃ p,
            (runCalls (freshHandler wid, initSys streams) calls).2.procs[pid]? = some p :=
          ⟨_, List.getElem?_eq_some.mpr ⟨hlt, rfl⟩⟩
        rw [stop_gen_atA _ _ pid p hg hp]
  · intro hg
    rw [stop_gen_none _ _ hg]

/-- Claim C4 (witness): `stop` after `get_event` followed by `stop` (the
manager is Idle again) returns successfully and is a no-op. -/
theorem stop_never_fails_witness :
    stop (runCalls (freshHandler (str "w"),
        initSys (fun _ => [str "A"])) [Call.get, Call.stopc]).1
      (runCalls (freshHandler (str "w"),
        initSys (fun _ => [str "A"])) [Call.get, Call.stopc]).2 =
    (Except.ok (), runCalls (freshHandler (str "w"),
        initSys (fun _ => [str "A"])) [Call.get, Call.stopc]) :=
  (stop_never_fails (str "w") (fun _ => [str "A"]) [Call.get, Call.stopc]).2.2 rfl

/-- Claim C5: after `stop` on an Active manager, the next `get_event`
performs the Idle-to-Active transition again with a *fresh* background
process: `stop` clears the generator, and the following `get_event`
spawns a new process (a new handle, distinct from the old one, raising
the spawn count by one) while the old process stays dead, and returns
the first line of the new process's stream. -/
theorem get_event_after_stop_fresh (wid : Str) (streams : Nat → List Str)
    (calls : List Call) (pid : Nat) (g : GenState) (l : Str) (rest : List Str)
    (hg : (runCalls (freshHandler wid, initSys streams) calls).1.genEvents =
      some (pid, g))
    (hstream : (runCalls (freshHandler wid, initSys streams) calls).2.streams
        (runCalls (freshHandler wid, initSys streams) calls).2.procs.length =
      l :: rest) :
    (stop (runCalls (freshHandler wid, initSys streams) calls).1
        (runCalls (freshHandler wid, initSys streams) calls).2).2.1.genEvents = none ∧
    (runCalls (freshHandler wid, initSys streams) calls).2.procs.length ≠ pid ∧
    (get_event
        (stop (runCalls (freshHandler wid, initSys streams) calls).1
          (runCalls (freshHandler wid, initSys streams) calls).2).2.1
        (stop (runCalls (freshHandler wid, initSys streams) calls).1
          (runCalls (freshHandler wid, initSys streams) calls).2).2.2).1 =
      Except.ok (some { text := pyStrip (l ++ ['\n']) }) ∧
    (get_event
        (stop (runCalls (freshHandler wid, initSys streams) calls).1
          (runCalls (freshHandler wid, initSys streams) calls).2).2.1
        (stop (runCalls (freshHandler wid, initSys streams) calls).1
          (runCalls (freshHandler wid, initSys streams) calls).2).2.2).2.1.genEvents =
      some ((runCalls (freshHandler wid, initSys streams) calls).2.procs.length,
        GenState.atA) ∧
    (get_event
        (stop (runCalls (freshHandler wid, initSys streams) calls).1
          (runCalls (freshHandler wid, initSys streams) calls).2).2.1
        (stop (runCalls (freshHandler wid, initSys streams) calls).1
          (runCalls (freshHandler wid, initSys streams) calls).2).2.2).2.2.procs.length =
      (runCalls (freshHandler wid, initSys streams) calls).2.procs.length + 1 ∧
    (∃ p, (get_event
        (stop (runCalls (freshHandler wid, initSys streams) calls).1
          (runCalls (freshHandler wid, initSys streams) calls).2).2.1
        (stop (runCalls (freshHandler wid, initSys streams) calls).1
          (runCalls (freshHandler wid, initSys streams) calls).2).2.2).2.2.procs[pid]? =
        some p ∧ p.alive = false) := by
  have hI : Inv (runCalls (freshHandler wid, initSys streams) calls) :=
    inv_runCalls calls _ (inv_fresh wid streams)
  obtain ⟨hatA, hlt, _⟩ := hI.2 pid g hg
  subst hatA
  obtain ⟨p, hp⟩ : ∃ p,
      (runCalls (freshHandler wid, initSys streams) calls).2.procs[pid]? = some p :=
    ⟨_, List.getElem?_eq_some.mpr ⟨hlt, rfl⟩⟩
  rw [stop_gen_atA _ _ pid p hg hp]
  have hlen : ((runCalls (freshHandler wid, initSys streams) calls).2.procs.set pid
      { lines := p.lines, alive := false }).length =
      (runCalls (freshHandler wid, initSys streams) calls).2.procs.length :=
    List.length_set _ _ _
  have hstream' :
      ({ streams := (runCalls (freshHandler wid, initSys streams) calls).2.streams,
         procs := (runCalls (freshHandler wid, initSys streams) calls).2.procs.set pid
           { lines := p.lines, alive := false } } : Sys).streams
        ({ streams := (runCalls (freshHandler wid, initSys streams) calls).2.streams,
           procs := (runCalls (freshHandler wid, initSys streams) calls).2.procs.set pid
             { lines := p.lines, alive := false } } : Sys).procs.length = l :: rest := by
    simpa [hlen] using hstream
  rw [get_event_none_cons _ _ l rest rfl hstream']
  refine ⟨rfl, Nat.ne_of_gt hlt, rfl, by simp [hlen], by simp [hlen], ?_⟩
  refine ⟨{ lines := p.lines, alive := false }, ?_, rfl⟩
  have hpidlt : pid < ((runCalls (freshHandler wid, initSys streams) calls).2.procs.set pid
      { lines := p.lines, alive := false }).length := by
    rw [hlen]; exact hlt
  rw [List.getElem?_append, if_pos hpidlt]
  exact List.getElem?_set_eq_of_lt _ hlt

/-- Claim C5 (witness): with every spawned process streaming `["A"]`,
after `get_event` then `stop`, the next `get_event` runs on a fresh
process with handle `1 ≠ 0`, the spawn count rises to two, the old
process `0` is dead, and the first line of the new stream is returned. -/
theorem get_event_after_stop_fresh_witness :
    (stop (runCalls (freshHandler (str "w"),
        initSys (fun _ => [str "A"])) [Call.get]).1
      (runCalls (freshHandler (str "w"),
        initSys (fun _ => [str "A"])) [Call.get]).2).2.1.genEvents = none ∧
    (runCalls (freshHandler (str "w"),
        initSys (fun _ => [str "A"])) [Call.get]).2.procs.length ≠ 0 ∧
    (get_event
        (stop (runCalls (freshHandler (str "w"),
          initSys (fun _ => [str "A"])) [Call.get]).1
          (runCalls (freshHandler (str "w"),
            initSys (fun _ => [str "A"])) [Call.get]).2).2.1
        (stop (runCalls (freshHandler (str "w"),
          initSys (fun _ => [str "A"])) [Call.get]).1
          (runCalls (freshHandler (str "w"),
            initSys (fun _ => [str "A"])) [Call.get]).2).2.2).1 =
      Except.ok (some { text := pyStrip (str "A" ++ ['\n']) }) :=
  let r := get_event_after_stop_fresh (str "w") (fun _ => [str "A"]) [Call.get]
    0 GenState.atA (str "A") [] rfl rfl
  ⟨r.1, r.2.1, r.2.2.1⟩

end Lib9p
